import Mathlib

/-! Shallow embedding of the log-analyzer application (src/source/main.py):
the keyword counter of `read_and_analyze_log`, the S3 upload of
`upload_to_s3` with collision-avoiding key sequencing and post-put
re-verification, the Supabase insert with echo verification of
`post_to_database`, the compensating delete of `rollback_database`, the
local-file deletion of `delete_log_file`, and the orchestrating
`analyze_and_post` pipeline.  The remote backends are modelled as explicit
oracles; each run returns the terminal user-visible outcome together with a
trace of the remote calls it made and the final archive key set. -/

namespace PyPVLC

/-! ## Keyword counting (`read_and_analyze_log`, lines 348-361) -/

/-- Lowercasing of the log text, modelling Python `str.lower` character-wise. -/
def lowerText (s : List Char) : List Char := s.map Char.toLower

/-- Non-overlapping left-to-right substring count, modelling Python
`str.count`: at a match the scan advances by the token length, otherwise by
one character. -/
def countTok (tok : List Char) : List Char → Nat
  | [] => 0
  | c :: rest =>
    if tok.isPrefixOf (c :: rest) then
      countTok tok (rest.drop (tok.length - 1)) + 1
    else
      countTok tok rest
termination_by s => s.length
decreasing_by
  · simp [List.length_drop]
    omega
  · simp

/-- The literal token "programmed" of line 358. -/
def progTok : List Char := "programmed".toList

/-- The literal token "passed verification" of line 359. -/
def verTok : List Char := "passed verification".toList

/-- The counting step of `read_and_analyze_log`: lowercase the whole content,
then count each token. -/
def analyzeLog (text : String) : Nat × Nat :=
  (countTok progTok (lowerText text.toList), countTok verTok (lowerText text.toList))

/-- Spec-side notion, following the spec's words: a family of positions of
non-overlapping occurrences of `tok` in `s`, listed left to right (each match
starts at least `tok.length` after the previous one, and each listed position
really carries an occurrence). -/
def specFamily (tok s : List Char) (L : List Nat) : Prop :=
  List.Chain' (fun p q => p + tok.length ≤ q) L ∧ ∀ p ∈ L, tok <+: s.drop p

/-- Spec-side achievability: `n` occurrences can be realised by some
non-overlapping family.  "The number of non-overlapping occurrences" is the
greatest achievable `n`. -/
def specAchievable (tok s : List Char) (n : Nat) : Prop :=
  ∃ L, specFamily tok s L ∧ L.length = n

/-- The list of positions the left-to-right scan of `countTok` counts at
(the witnessing family for the count). -/
def greedyFam (tok : List Char) : List Char → List Nat
  | [] => []
  | c :: rest =>
    if tok.isPrefixOf (c :: rest) then
      0 :: (greedyFam tok (rest.drop (tok.length - 1))).map (· + tok.length)
    else
      (greedyFam tok rest).map (· + 1)
termination_by s => s.length
decreasing_by
  · simp [List.length_drop]
    omega
  · simp

/-! ## Archive store oracle (`check_file_exists`, lines 165-186) -/

/-- Classification of one `head_object` call as seen by `check_file_exists`:
an honest answer (200 when the key is present, 404 when absent), a 403
(treated as absent, lines 176-181), or any other `ClientError` (re-raised,
line 185).  A 404 can only truthfully be answered for an absent key and a 200
only for a present one, so those are tied to the actual key set; 403 and
other errors can occur either way and are injected by the oracle. -/
inductive ProbeFault
  | honest
  | deny403
  | raiseErr
deriving DecidableEq

/-- Model of `check_file_exists`: returns whether the key is treated as existing, or
re-raises (modelled as `Except.error`). -/
def checkFileExists (f : ProbeFault) (keys : List String) (k : String) : Except Unit Bool :=
  match f with
  | .honest => .ok (keys.contains k)
  | .deny403 => .ok false
  | .raiseErr => .error ()

/-! ## Key sequencing and upload (`upload_to_s3`, lines 72-162) -/

/-- The sequence of candidate keys probed by `upload_to_s3` (lines 88-98):
first the unsequenced base name, then `-1`, `-2`, ... -/
def keyAt (date job : String) (qty : Nat) : Nat → String
  | 0 => s!"logs/{date}-{job}-{qty}.txt"
  | Nat.succ n => s!"logs/{date}-{job}-{qty}-{n + 1}.txt"

/-- The `while check_file_exists(...)` loop of lines 96-98, over an arbitrary
probe.  `fuel` bounds the number of probe calls we are willing to model (the
source loop itself is unbounded); `none` means the loop was still running
after `fuel` probes.  On success it returns the chosen key, on a probe
exception the error, together with the list of keys probed. -/
def findFreeKey (probe : Nat → String → Except Unit Bool) (key : Nat → String) :
    Nat → Nat → Option (Except Unit String × List String)
  | 0, _ => none
  | fuel + 1, n =>
    match probe n (key n) with
    | .error e => some (.error e, [key n])
    | .ok true =>
      match findFreeKey probe key fuel (n + 1) with
      | none => none
      | some (r, probed) => some (r, key n :: probed)
    | .ok false => some (.ok (key n), [key n])

/-- Termination of the probing loop started at index 0: some finite number of
probes suffices for it to return. -/
def findTerminates (probe : Nat → String → Except Unit Bool) (key : Nat → String) : Prop :=
  ∃ fuel, (findFreeKey probe key fuel 0).isSome

/-- Behaviour of the one `put_object` call: success, or any of the caught
exceptions of lines 119-162 (all returning failure; a failed put is modelled
as not writing the object). -/
inductive PutFault
  | ok
  | fail
deriving DecidableEq

/-- Remote-call events of one pipeline run, in order. -/
inductive Ev
  | insert
  | probe (k : String)
  | put (k : String)
  | dbDelete (rid : Option Nat)
  | fsDelete
deriving DecidableEq

/-- Recogniser for the compensating database delete. -/
def isDbDelete : Ev → Bool
  | .dbDelete _ => true
  | _ => false

/-- The S3 environment of one run: whether BUCKET_NAME is set, the keys
already in the bucket, the fault injected on each probe of the sequencing
loop, on the post-put verification probe, and on the put itself. -/
structure S3Env where
  bucketSet : Bool
  keys : List String
  loopFaults : Nat → ProbeFault
  verifyFault : ProbeFault
  putFault : PutFault

/-- Result of `upload_to_s3`: the uploaded file name (`some` exactly on
success, mirroring the `(success, file_name, error)` triple of line 79), the
final key set of the bucket, and the S3 calls made. -/
structure S3Result where
  result : Option String
  finalKeys : List String
  trace : List Ev
deriving DecidableEq

/-- Model of `upload_to_s3` (lines 72-162): check BUCKET_NAME, find a non-conflicting
key, put, then re-verify by probing the key again; any failure yields
`result = none`. -/
def uploadToS3 (s3 : S3Env) (date job : String) (qty : Nat) (fuel : Nat) : Option S3Result :=
  if s3.bucketSet then
    match findFreeKey (fun n k => checkFileExists (s3.loopFaults n) s3.keys k)
        (keyAt date job qty) fuel 0 with
    | none => none
    | some (.error _, probed) => some ⟨none, s3.keys, probed.map Ev.probe⟩
    | some (.ok k, probed) =>
      match s3.putFault with
      | .fail => some ⟨none, s3.keys, probed.map Ev.probe ++ [.put k]⟩
      | .ok =>
        match checkFileExists s3.verifyFault (k :: s3.keys) k with
        | .ok true => some ⟨some k, k :: s3.keys, probed.map Ev.probe ++ [.put k, .probe k]⟩
        | .ok false => some ⟨none, k :: s3.keys, probed.map Ev.probe ++ [.put k, .probe k]⟩
        | .error _ => some ⟨none, k :: s3.keys, probed.map Ev.probe ++ [.put k, .probe k]⟩
  else
    some ⟨none, s3.keys, []⟩

/-! ## Record store (`post_to_database`, lines 363-388, and
`rollback_database`, lines 390-409) -/

/-- The record submitted to the insert (the `data` dict of lines 364-370). -/
structure SubmittedData where
  job_order : String
  job_quantity : Nat
  programmed : Nat
  verified : Nat
  device : String
deriving DecidableEq

/-- The echoed inserted row (`response.data[0]`): each submitted field may be
present or absent (an absent field makes the comparison fail), plus the
store-assigned id, which may itself be absent (line 379 uses `.get("id")`). -/
structure EchoedRow where
  job_order : Option String
  job_quantity : Option Nat
  programmed : Option Nat
  verified : Option Nat
  device : Option String
  id : Option Nat
deriving DecidableEq

/-- Behaviour of the one insert call: an exception (caught at line 386), or a
response carrying the echoed rows (`response.data`; empty means the
line-384 failure branch). -/
inductive InsertResp
  | raises
  | resp (rows : List EchoedRow)

/-- The field-by-field echo comparison of line 377 (`all(inserted_record[key]
== data[key] for key in data)`); a missing key raises KeyError, which the
surrounding `except` turns into the same failure result as a mismatch. -/
def echoMatches (r : EchoedRow) (d : SubmittedData) : Bool :=
  r.job_order == some d.job_order && r.job_quantity == some d.job_quantity &&
  r.programmed == some d.programmed && r.verified == some d.verified &&
  r.device == some d.device

/-- Model of `post_to_database`: returns `(success, record id)` exactly as lines
372-388 do. -/
def postToDatabase (d : SubmittedData) (resp : InsertResp) : Bool × Option Nat :=
  match resp with
  | .raises => (false, none)
  | .resp [] => (false, none)
  | .resp (r :: _) => if echoMatches r d then (true, r.id) else (false, none)

/-- Behaviour of the delete call inside `rollback_database`: an exception
(caught at line 407) or a response whose `data` is truthy or not. -/
inductive DeleteResp
  | raises
  | resp (hasData : Bool)

/-- Model of `rollback_database` (lines 390-409): true iff the delete response carried
data. -/
def rollbackDatabase : DeleteResp → Bool
  | .raises => false
  | .resp b => b

/-! ## Local file collaborators -/

/-- Behaviour of `open(self.file_path, "rb")` at line 463: success,
FileNotFoundError (caught at line 507), or any other exception (caught at
line 515). -/
inductive FileOpenResp
  | ok
  | notFound
  | otherErr
deriving DecidableEq

/-- Behaviour of `delete_log_file` (lines 216-229): path is not a file
(prints and returns), the pre-delete `chmod` raises (uncaught, propagates to
the caller), removal succeeds, or removal raises PermissionError or another
exception (both caught and swallowed at lines 224-227). -/
inductive LocalDeleteResp
  | notAFile
  | chmodRaises
  | removed
  | permError
  | otherError
deriving DecidableEq

/-- The control-flow effect of `delete_log_file` on its caller: it returns
normally in every case except an exception from the `chmod` at line 220,
which is the only statement outside its internal `try`. -/
def deleteLogFile : LocalDeleteResp → Except Unit Unit
  | .chmodRaises => .error ()
  | _ => .ok ()

/-! ## The pipeline (`analyze_and_post`, lines 411-535) -/

/-- Terminal user-visible outcomes of one `analyze_and_post` run, one per
distinct message flow of lines 443-535. -/
inductive Outcome
  | belowThresholdProgrammed
  | belowThresholdVerified
  | insertFailed
  | uploadFailedRolledBack
  | uploadFailedRollbackFailed (rid : Option Nat)
  | fileNotFoundRolledBack (rb : Bool)
  | unexpectedErrorRolledBack (rb : Bool)
  | fullSuccess (key : String)
deriving DecidableEq

/-- Result of one run: the outcome, whether the excessive-variance advisory
of lines 445-449 fired, the remote calls made, and the final archive keys. -/
structure RunResult where
  outcome : Outcome
  advisory : Bool
  trace : List Ev
  finalKeys : List String
deriving DecidableEq

/-- Environment of one run: the oracle for each external call the pipeline
can make. -/
structure PipeEnv where
  insertResp : InsertResp
  deleteResp : DeleteResp
  s3 : S3Env
  date : String
  fileOpen : FileOpenResp
  localDelete : LocalDeleteResp

/-- The advisory condition of line 445: `programmed > job_quantity + 10 or
verified > job_quantity + 10`. -/
def advOf (qty prog ver : Nat) : Bool :=
  decide (qty + 10 < prog) || decide (qty + 10 < ver)

/-- Model of `analyze_and_post` from the threshold checks onward (lines 443-535); the
upstream input parsing and log reading have already produced `job`, `qty`,
`prog`, `ver` and `device`.  Returns `none` only when the key-probing loop is
still running after `fuel` probes. -/
def analyzeAndPost (env : PipeEnv) (job : String) (qty prog ver : Nat) (device : String)
    (fuel : Nat) : Option RunResult :=
  if qty ≤ prog then
    if qty ≤ ver then
      match postToDatabase ⟨job, qty, prog, ver, device⟩ env.insertResp with
      | (false, _) => some ⟨.insertFailed, advOf qty prog ver, [.insert], env.s3.keys⟩
      | (true, rid) =>
        match env.fileOpen with
        | .notFound =>
          some ⟨.fileNotFoundRolledBack (rollbackDatabase env.deleteResp), advOf qty prog ver,
                [.insert, .dbDelete rid], env.s3.keys⟩
        | .otherErr =>
          some ⟨.unexpectedErrorRolledBack (rollbackDatabase env.deleteResp), advOf qty prog ver,
                [.insert, .dbDelete rid], env.s3.keys⟩
        | .ok =>
          match uploadToS3 env.s3 env.date job qty fuel with
          | none => none
          | some r =>
            match r.result with
            | some k =>
              match deleteLogFile env.localDelete with
              | .ok _ =>
                some ⟨.fullSuccess k, advOf qty prog ver,
                      .insert :: (r.trace ++ [.fsDelete]), r.finalKeys⟩
              | .error _ =>
                some ⟨.unexpectedErrorRolledBack (rollbackDatabase env.deleteResp),
                      advOf qty prog ver,
                      .insert :: (r.trace ++ [.fsDelete, .dbDelete rid]), r.finalKeys⟩
            | none =>
              some ⟨(if rollbackDatabase env.deleteResp then .uploadFailedRolledBack
                     else .uploadFailedRollbackFailed rid), advOf qty prog ver,
                    .insert :: (r.trace ++ [.dbDelete rid]), r.finalKeys⟩
    else some ⟨.belowThresholdVerified, false, [], env.s3.keys⟩
  else some ⟨.belowThresholdProgrammed, false, [], env.s3.keys⟩

/-! ## Lemmas about the keyword counter -/

/-- Positions after the head of a non-overlapping chain are at least one
token length beyond it. -/
theorem chain_le_of_mem {k : Nat} :
    ∀ {L : List Nat} {p q : Nat},
      List.Chain' (fun a b => a + k ≤ b) (p :: L) → q ∈ L → p + k ≤ q := by
  intro L
  induction L with
  | nil => intro p q _ hq; cases hq
  | cons b t ih =>
    intro p q hc hq
    rw [List.chain'_cons] at hc
    rcases List.mem_cons.mp hq with rfl | hq
    · exact hc.1
    · have := ih hc.2 hq
      omega

/-- Shifting a non-overlapping chain down by `m` preserves the chain when all
its members are at least `m`. -/
theorem chain_shift_down {k m : Nat} :
    ∀ {L : List Nat}, List.Chain' (fun a b => a + k ≤ b) L → (∀ q ∈ L, m ≤ q) →
      List.Chain' (fun a b => a + k ≤ b) (L.map (fun x => x - m)) := by
  intro L
  induction L with
  | nil => intro _ _; simp
  | cons a t ih =>
    intro hc hm
    cases t with
    | nil => simp
    | cons b t' =>
      rw [List.chain'_cons] at hc
      have hma : m ≤ a := hm a (by simp)
      simp only [List.map_cons]
      rw [List.chain'_cons]
      refine ⟨by omega, ?_⟩
      have := ih hc.2 (fun q hq => hm q (List.mem_cons_of_mem _ hq))
      simpa using this

/-- Shifting a non-overlapping chain up by `m` preserves the chain. -/
theorem chain_shift_up {k m : Nat} {L : List Nat}
    (hc : List.Chain' (fun a b => a + k ≤ b) L) :
    List.Chain' (fun a b => a + k ≤ b) (L.map (fun x => x + m)) := by
  rw [List.chain'_map]
  exact hc.imp (fun a b h => by omega)

/-- Maximality: no non-overlapping family of occurrences is larger than the
left-to-right scan's count. -/
theorem specFamily_length_le (tok : List Char) (htok : tok ≠ []) :
    ∀ n s L, s.length ≤ n → specFamily tok s L → L.length ≤ countTok tok s := by
  have hk : 1 ≤ tok.length := List.length_pos.mpr htok
  intro n
  induction n with
  | zero =>
    intro s L hlen hfam
    have hs : s = [] := List.length_eq_zero.mp (Nat.le_zero.mp hlen)
    subst hs
    cases L with
    | nil => simp
    | cons p t =>
      have := hfam.2 p (by simp)
      simp only [List.drop_nil] at this
      exact absurd (List.prefix_nil.mp this) htok
  | succ n ih =>
    intro s L hlen hfam
    cases s with
    | nil =>
      cases L with
      | nil => simp
      | cons p t =>
        have := hfam.2 p (by simp)
        simp only [List.drop_nil] at this
        exact absurd (List.prefix_nil.mp this) htok
    | cons c rest =>
      by_cases hpre : tok.isPrefixOf (c :: rest) = true
      · have hcount : countTok tok (c :: rest) =
            countTok tok (rest.drop (tok.length - 1)) + 1 := by
          rw [countTok]; simp [hpre]
        cases L with
        | nil => simp
        | cons p t =>
          have hge : ∀ q ∈ t, tok.length ≤ q := by
            intro q hq
            have := chain_le_of_mem hfam.1 hq
            omega
          have hdropk : rest.drop (tok.length - 1) = (c :: rest).drop tok.length := by
            cases htl : tok.length with
            | zero => omega
            | succ m => simp [List.drop_succ_cons]
          have hfam' : specFamily tok (rest.drop (tok.length - 1)) (t.map (fun x => x - tok.length)) := by
            constructor
            · have ht : List.Chain' (fun a b => a + tok.length ≤ b) t :=
                (List.chain'_cons'.mp hfam.1).2
              exact chain_shift_down ht hge
            · intro q hq
              rcases List.mem_map.mp hq with ⟨q₀, hq₀, rfl⟩
              have hmatch := hfam.2 q₀ (List.mem_cons_of_mem _ hq₀)
              rw [hdropk, List.drop_drop]
              have : tok.length + (q₀ - tok.length) = q₀ := by
                have := hge q₀ hq₀; omega
              rw [this]
              exact hmatch
          have hlen' : (rest.drop (tok.length - 1)).length ≤ n := by
            rw [List.length_drop]
            simp only [List.length_cons] at hlen
            omega
          have := ih (rest.drop (tok.length - 1)) (t.map (fun x => x - tok.length)) hlen' hfam'
          rw [hcount]
          simp only [List.length_map] at this
          simp only [List.length_cons]
          omega
      · have hcount : countTok tok (c :: rest) = countTok tok rest := by
          rw [countTok]; simp [hpre]
        have hpos : ∀ q ∈ L, 1 ≤ q := by
          intro q hq
          rcases Nat.eq_zero_or_pos q with rfl | h
          · have := hfam.2 0 hq
            simp only [List.drop_zero] at this
            exact absurd (List.isPrefixOf_iff_prefix.mpr this) hpre
          · exact h
        have hfam' : specFamily tok rest (L.map (fun x => x - 1)) := by
          constructor
          · exact chain_shift_down hfam.1 hpos
          · intro q hq
            rcases List.mem_map.mp hq with ⟨q₀, hq₀, rfl⟩
            have hmatch := hfam.2 q₀ hq₀
            have hq1 : 1 ≤ q₀ := hpos q₀ hq₀
            have : rest.drop (q₀ - 1) = (c :: rest).drop q₀ := by
              cases hq0 : q₀ with
              | zero => omega
              | succ m => simp [List.drop_succ_cons]
            rw [this]
            exact hmatch
        have hlen' : rest.length ≤ n := by
          simp only [List.length_cons] at hlen; omega
        have := ih rest (L.map (fun x => x - 1)) hlen' hfam'
        rw [hcount]
        simpa using this

/-- The scan's witnessing family has exactly the counted length. -/
theorem greedyFam_length (tok : List Char) :
    ∀ n s, s.length ≤ n → (greedyFam tok s).length = countTok tok s := by
  intro n
  induction n with
  | zero =>
    intro s hlen
    have hs : s = [] := List.length_eq_zero.mp (Nat.le_zero.mp hlen)
    subst hs
    rw [greedyFam, countTok]
    simp
  | succ n ih =>
    intro s hlen
    cases s with
    | nil =>
      rw [greedyFam, countTok]
      simp
    | cons c rest =>
      by_cases hpre : tok.isPrefixOf (c :: rest) = true
      · rw [greedyFam, countTok]
        simp only [if_pos hpre, List.length_cons, List.length_map]
        have hlen' : (rest.drop (tok.length - 1)).length ≤ n := by
          rw [List.length_drop]
          simp only [List.length_cons] at hlen
          omega
        rw [ih _ hlen']
      · rw [greedyFam, countTok]
        simp only [if_neg hpre, List.length_map]
        have hlen' : rest.length ≤ n := by
          simp only [List.length_cons] at hlen; omega
        rw [ih _ hlen']

/-- The scan's witnessing family is a genuine non-overlapping family of
occurrences. -/
theorem greedyFam_spec (tok : List Char) (htok : tok ≠ []) :
    ∀ n s, s.length ≤ n → specFamily tok s (greedyFam tok s) := by
  have hk : 1 ≤ tok.length := List.length_pos.mpr htok
  intro n
  induction n with
  | zero =>
    intro s hlen
    have hs : s = [] := List.length_eq_zero.mp (Nat.le_zero.mp hlen)
    subst hs
    rw [greedyFam]
    exact ⟨by simp, by simp⟩
  | succ n ih =>
    intro s hlen
    cases s with
    | nil =>
      rw [greedyFam]
      exact ⟨by simp, by simp⟩
    | cons c rest =>
      by_cases hpre : tok.isPrefixOf (c :: rest) = true
      · have hdropk : rest.drop (tok.length - 1) = (c :: rest).drop tok.length := by
          cases htl : tok.length with
          | zero => omega
          | succ m => simp [List.drop_succ_cons]
        have hlen' : (rest.drop (tok.length - 1)).length ≤ n := by
          rw [List.length_drop]
          simp only [List.length_cons] at hlen
          omega
        have hsub := ih (rest.drop (tok.length - 1)) hlen'
        rw [greedyFam]
        simp only [if_pos hpre]
        constructor
        · rw [List.chain'_cons']
          constructor
          · intro y hy
            rcases List.head?_eq_some_iff.mp hy with ⟨t', ht'⟩
            have : y ∈ (greedyFam tok (rest.drop (tok.length - 1))).map (fun x => x + tok.length) := by
              rw [ht']; simp
            rcases List.mem_map.mp this with ⟨q, _, rfl⟩
            omega
          · simpa using chain_shift_up (m := tok.length) hsub.1
        · intro p hp
          rcases List.mem_cons.mp hp with rfl | hp
          · simpa using List.isPrefixOf_iff_prefix.mp hpre
          · rcases List.mem_map.mp hp with ⟨q, hq, rfl⟩
            have hmatch := hsub.2 q hq
            rw [hdropk, List.drop_drop] at hmatch
            have : tok.length + q = q + tok.length := by omega
            rwa [this] at hmatch
      · have hlen' : rest.length ≤ n := by
          simp only [List.length_cons] at hlen; omega
        have hsub := ih rest hlen'
        rw [greedyFam]
        simp only [if_neg hpre]
        constructor
        · simpa using chain_shift_up (m := 1) hsub.1
        · intro p hp
          rcases List.mem_map.mp hp with ⟨q, hq, rfl⟩
          have hmatch := hsub.2 q hq
          rw [show List.drop (q + 1) (c :: rest) = List.drop q rest from List.drop_succ_cons]
          exact hmatch

/-- The left-to-right scan computes exactly the greatest number of
non-overlapping occurrences. -/
theorem countTok_isGreatest (tok : List Char) (htok : tok ≠ []) (s : List Char) :
    IsGreatest {n | specAchievable tok s n} (countTok tok s) := by
  constructor
  · exact ⟨greedyFam tok s, greedyFam_spec tok htok s.length s le_rfl,
      greedyFam_length tok s.length s le_rfl⟩
  · rintro m ⟨L, hL, rfl⟩
    exact specFamily_length_le tok htok s.length s L le_rfl hL

/-- C9: for every text, the counter returns the greatest number of
non-overlapping case-insensitive occurrences of each of the literal tokens
"programmed" and "passed verification" (counting occurrences, not lines);
counting the empty text gives (0, 0); and the counter is a pure function, so
counting the same text twice yields the same pair. -/
theorem C9_count_correct (text : String) :
    analyzeLog "" = (0, 0) ∧
    analyzeLog text = analyzeLog text ∧
    IsGreatest {n | specAchievable progTok (lowerText text.toList) n} (analyzeLog text).1 ∧
    IsGreatest {n | specAchievable verTok (lowerText text.toList) n} (analyzeLog text).2 := by
  refine ⟨?_, rfl, ?_, ?_⟩
  · rw [analyzeLog]
    have h1 : lowerText "".toList = [] := rfl
    rw [h1, countTok, countTok]
  · exact countTok_isGreatest progTok (by simp [progTok]) _
  · exact countTok_isGreatest verTok (by simp [verTok]) _

/-! ## Lemmas about the key-sequencing loop -/

/-- With a probe that reports every key as taken, the sequencing loop never
returns, whatever fuel it is given. -/
theorem findFreeKey_allTaken (key : Nat → String) :
    ∀ fuel n, findFreeKey (fun _ _ => .ok true) key fuel n = none := by
  intro fuel
  induction fuel with
  | zero => intro n; rfl
  | succ m ih => intro n; simp [findFreeKey, ih]

/-- One unfolding step of the probing loop. -/
theorem findFreeKey_succ (probe : Nat → String → Except Unit Bool) (key : Nat → String)
    (fuel n : Nat) :
    findFreeKey probe key (fuel + 1) n =
      match probe n (key n) with
      | .error e => some (.error e, [key n])
      | .ok true =>
        match findFreeKey probe key fuel (n + 1) with
        | none => none
        | some (r, probed) => some (r, key n :: probed)
      | .ok false => some (.ok (key n), [key n]) := rfl

/-- If the probe reports the first `d` keys from `s` taken and then answers
something other than "taken", the loop returns within `d + 1` probes. -/
theorem findFreeKey_stops (probe : Nat → String → Except Unit Bool) (key : Nat → String) :
    ∀ d s, (∀ j, j < d → probe (s + j) (key (s + j)) = .ok true) →
      probe (s + d) (key (s + d)) ≠ .ok true →
      (findFreeKey probe key (d + 1) s).isSome = true := by
  intro d
  induction d with
  | zero =>
    intro s _ hne
    simp only [Nat.add_zero] at hne
    rcases h : probe s (key s) with e | b
    · simp [findFreeKey, h]
    · cases b
      · simp [findFreeKey, h]
      · exact absurd h hne
  | succ d ih =>
    intro s hall hne
    have h0 : probe s (key s) = .ok true := by
      have := hall 0 (by omega)
      simpa using this
    have hsub := ih (s + 1)
      (fun j hj => by
        have := hall (j + 1) (by omega)
        have heq : s + (j + 1) = s + 1 + j := by omega
        rwa [heq] at this)
      (by
        have heq : s + (d + 1) = s + 1 + d := by omega
        rwa [heq] at hne)
    rcases Option.isSome_iff_exists.mp hsub with ⟨val, hval⟩
    rcases val with ⟨r, probed⟩
    rw [findFreeKey_succ, h0]
    simp [hval]

/-- C7 (counterexample): the claim fails on the code: the key-probing loop of
`upload_to_s3` has no retry cap and no SequenceExhausted error, so against a
probe that persistently reports every key taken it never returns, for any
number of probes we are willing to wait. -/
theorem C7_counterexample :
    ¬ findTerminates (fun _ _ => .ok true) (keyAt "2025-01-01" "JAN 1" 5) := by
  rintro ⟨fuel, h⟩
  rw [findFreeKey_allTaken] at h
  simp at h

/-- C7 (amended): the probing loop terminates exactly when the probe
eventually answers something other than "taken" (a free key or an exception)
on the probed key sequence; with no retry cap, a probe that keeps reporting
keys taken makes it loop forever. -/
theorem C7_amended (probe : Nat → String → Except Unit Bool) (key : Nat → String) :
    findTerminates probe key ↔ ∃ n, probe n (key n) ≠ .ok true := by
  constructor
  · rintro ⟨fuel, h⟩
    by_contra hnone
    push_neg at hnone
    have hall : ∀ f n, findFreeKey probe key f n = none := by
      intro f
      induction f with
      | zero => intro n; rfl
      | succ m ih => intro n; simp [findFreeKey, hnone n, ih]
    rw [hall] at h
    simp at h
  · rintro ⟨n, hn⟩
    have key_th : ∀ n, probe n (key n) ≠ .ok true → findTerminates probe key := by
      intro n
      induction n using Nat.strong_induction_on with
      | _ n ihn =>
        intro hn
        by_cases hfirst : ∀ j, j < n → probe j (key j) = .ok true
        · refine ⟨n + 1, ?_⟩
          have := findFreeKey_stops probe key n 0
            (fun j hj => by simpa using hfirst j hj) (by simpa using hn)
          exact this
        · push_neg at hfirst
          obtain ⟨j, hj, hjne⟩ := hfirst
          exact ihn j hj hjne
    exact key_th n hn

/-! ## Lemmas about the upload stage -/

/-- Exhaustive inversion of `uploadToS3`: its five possible result shapes. -/
theorem uploadToS3_inv {s3 : S3Env} {date job : String} {qty fuel : Nat} {r : S3Result}
    (h : uploadToS3 s3 date job qty fuel = some r) :
    (s3.bucketSet = false ∧ r = ⟨none, s3.keys, []⟩) ∨
    (∃ probed, findFreeKey (fun n k => checkFileExists (s3.loopFaults n) s3.keys k)
        (keyAt date job qty) fuel 0 = some (.error (), probed) ∧
      r = ⟨none, s3.keys, probed.map Ev.probe⟩) ∨
    (∃ k probed, findFreeKey (fun n k => checkFileExists (s3.loopFaults n) s3.keys k)
        (keyAt date job qty) fuel 0 = some (.ok k, probed) ∧ s3.putFault = .fail ∧
      r = ⟨none, s3.keys, probed.map Ev.probe ++ [.put k]⟩) ∨
    (∃ k probed, findFreeKey (fun n k => checkFileExists (s3.loopFaults n) s3.keys k)
        (keyAt date job qty) fuel 0 = some (.ok k, probed) ∧ s3.putFault = .ok ∧
      checkFileExists s3.verifyFault (k :: s3.keys) k = .ok true ∧
      r = ⟨some k, k :: s3.keys, probed.map Ev.probe ++ [.put k, .probe k]⟩) ∨
    (∃ k probed, findFreeKey (fun n k => checkFileExists (s3.loopFaults n) s3.keys k)
        (keyAt date job qty) fuel 0 = some (.ok k, probed) ∧ s3.putFault = .ok ∧
      checkFileExists s3.verifyFault (k :: s3.keys) k ≠ .ok true ∧
      r = ⟨none, k :: s3.keys, probed.map Ev.probe ++ [.put k, .probe k]⟩) := by
  unfold uploadToS3 at h
  by_cases hb : s3.bucketSet
  · rw [if_pos hb] at h
    rcases hf : findFreeKey (fun n k => checkFileExists (s3.loopFaults n) s3.keys k)
        (keyAt date job qty) fuel 0 with _ | ⟨res, probed⟩
    · simp only [hf] at h
      exact absurd h (by simp)
    · simp only [hf] at h
      rcases res with e | k
      · cases e
        simp only [Option.some.injEq] at h
        exact Or.inr (Or.inl ⟨probed, rfl, h.symm⟩)
      · rcases hp : s3.putFault with _ | _
        · simp only [hp] at h
          rcases hv : checkFileExists s3.verifyFault (k :: s3.keys) k with e | b
          · simp only [hv, Option.some.injEq] at h
            exact Or.inr (Or.inr (Or.inr (Or.inr ⟨k, probed, rfl, rfl, by simp [hv], h.symm⟩)))
          · cases b
            · simp only [hv, Option.some.injEq] at h
              exact Or.inr (Or.inr (Or.inr (Or.inr ⟨k, probed, rfl, rfl, by simp [hv], h.symm⟩)))
            · simp only [hv, Option.some.injEq] at h
              exact Or.inr (Or.inr (Or.inr (Or.inl ⟨k, probed, rfl, rfl, hv, h.symm⟩)))
        · simp only [hp, Option.some.injEq] at h
          exact Or.inr (Or.inr (Or.inl ⟨k, probed, rfl, rfl, h.symm⟩))
  · rw [if_neg hb] at h
    simp only [Option.some.injEq] at h
    exact Or.inl ⟨by simpa using hb, h.symm⟩

/-- The upload stage only ever issues probe and put calls. -/
theorem uploadToS3_trace_events {s3 : S3Env} {date job : String} {qty fuel : Nat} {r : S3Result}
    (h : uploadToS3 s3 date job qty fuel = some r) :
    ∀ e ∈ r.trace, (∃ k, e = Ev.probe k) ∨ (∃ k, e = Ev.put k) := by
  intro e he
  rcases uploadToS3_inv h with ⟨_, rfl⟩ | ⟨probed, _, rfl⟩ | ⟨k, probed, _, _, rfl⟩ |
    ⟨k, probed, _, _, _, rfl⟩ | ⟨k, probed, _, _, _, rfl⟩
  · simp at he
  · rcases List.mem_map.mp he with ⟨k', _, rfl⟩
    exact Or.inl ⟨k', rfl⟩
  · rcases List.mem_append.mp he with he | he
    · rcases List.mem_map.mp he with ⟨k', _, rfl⟩
      exact Or.inl ⟨k', rfl⟩
    · rcases List.mem_singleton.mp he with rfl
      exact Or.inr ⟨k, rfl⟩
  · rcases List.mem_append.mp he with he | he
    · rcases List.mem_map.mp he with ⟨k', _, rfl⟩
      exact Or.inl ⟨k', rfl⟩
    · rcases List.mem_cons.mp he with rfl | he
      · exact Or.inr ⟨k, rfl⟩
      · rcases List.mem_singleton.mp he with rfl
        exact Or.inl ⟨k, rfl⟩
  · rcases List.mem_append.mp he with he | he
    · rcases List.mem_map.mp he with ⟨k', _, rfl⟩
      exact Or.inl ⟨k', rfl⟩
    · rcases List.mem_cons.mp he with rfl | he
      · exact Or.inr ⟨k, rfl⟩
      · rcases List.mem_singleton.mp he with rfl
        exact Or.inl ⟨k, rfl⟩

/-- The upload stage never issues a database delete. -/
theorem uploadToS3_no_delete {s3 : S3Env} {date job : String} {qty fuel : Nat} {r : S3Result}
    (h : uploadToS3 s3 date job qty fuel = some r) :
    r.trace.filter isDbDelete = [] := by
  rw [List.filter_eq_nil_iff]
  intro e he
  rcases uploadToS3_trace_events h e he with ⟨k, rfl⟩ | ⟨k, rfl⟩ <;> simp [isDbDelete]

/-- A successful verification probe can only come from an honest answer on a
key that was just written. -/
theorem verify_ok_honest {f : ProbeFault} {keys : List String} {k : String}
    (h : checkFileExists f (k :: keys) k = .ok true) : f = .honest := by
  cases f <;> simp_all [checkFileExists]

/-- A successful upload result implies the put went through, the verification
probe honestly found the freshly written key, and the trace ends with the put
followed by the re-verification probe of the same key. -/
theorem uploadToS3_result_some {s3 : S3Env} {date job : String} {qty fuel : Nat} {r : S3Result}
    {k : String} (h : uploadToS3 s3 date job qty fuel = some r) (hk : r.result = some k) :
    s3.putFault = .ok ∧ s3.verifyFault = .honest ∧ r.finalKeys = k :: s3.keys ∧
    ∃ pre, r.trace = pre ++ [.put k, .probe k] := by
  rcases uploadToS3_inv h with ⟨_, rfl⟩ | ⟨probed, _, rfl⟩ | ⟨k', probed, _, _, rfl⟩ |
    ⟨k', probed, hf, hp, hv, rfl⟩ | ⟨k', probed, _, _, _, rfl⟩
  · simp at hk
  · simp at hk
  · simp at hk
  · simp only [Option.some.injEq] at hk
    subst hk
    exact ⟨hp, verify_ok_honest hv, rfl, ⟨probed.map Ev.probe, rfl⟩⟩
  · simp at hk

/-- If the put succeeds but the verification probe does not honestly find the
key, the upload reports failure. -/
theorem uploadToS3_verify_fail {s3 : S3Env} {date job : String} {qty fuel : Nat} {r : S3Result}
    (h : uploadToS3 s3 date job qty fuel = some r) (_hp : s3.putFault = .ok)
    (hv : s3.verifyFault ≠ .honest) : r.result = none := by
  rcases hres : r.result with _ | k
  · rfl
  · rcases uploadToS3_result_some h hres with ⟨_, hhon, _, _⟩
    exact absurd hhon hv

/-- A failing put leaves the archive unchanged and the upload fails. -/
theorem uploadToS3_putFail {s3 : S3Env} {date job : String} {qty fuel : Nat} {r : S3Result}
    (h : uploadToS3 s3 date job qty fuel = some r) (hp : s3.putFault = .fail) :
    r.result = none ∧ r.finalKeys = s3.keys := by
  rcases uploadToS3_inv h with ⟨_, rfl⟩ | ⟨probed, _, rfl⟩ | ⟨k', probed, _, _, rfl⟩ |
    ⟨k', probed, _, hp', _, rfl⟩ | ⟨k', probed, _, hp', _, rfl⟩
  · exact ⟨rfl, rfl⟩
  · exact ⟨rfl, rfl⟩
  · exact ⟨rfl, rfl⟩
  · simp [hp] at hp'
  · simp [hp] at hp'

/-- If a put call appears in the upload trace and the put succeeded, the
written key is in the final archive key set. -/
theorem uploadToS3_put_mem {s3 : S3Env} {date job : String} {qty fuel : Nat} {r : S3Result}
    {k : String} (h : uploadToS3 s3 date job qty fuel = some r) (hmem : Ev.put k ∈ r.trace)
    (hp : s3.putFault = .ok) : r.finalKeys = k :: s3.keys := by
  rcases uploadToS3_inv h with ⟨_, rfl⟩ | ⟨probed, _, rfl⟩ | ⟨k', probed, _, hp', rfl⟩ |
    ⟨k', probed, _, _, _, rfl⟩ | ⟨k', probed, _, _, _, rfl⟩
  · simp at hmem
  · simp only [List.mem_map] at hmem
    rcases hmem with ⟨_, _, h'⟩
    cases h'
  · simp_all
  · simp only [List.mem_append, List.mem_map, List.mem_cons] at hmem
    rcases hmem with ⟨_, _, h'⟩ | h'
    · cases h'
    · rcases h' with h' | h'
      · cases h'; rfl
      · simp at h'
  · simp only [List.mem_append, List.mem_map, List.mem_cons] at hmem
    rcases hmem with ⟨_, _, h'⟩ | h'
    · cases h'
    · rcases h' with h' | h'
      · cases h'; rfl
      · simp at h'

/-- If no put call appears in the upload trace, the archive is unchanged. -/
theorem uploadToS3_no_put {s3 : S3Env} {date job : String} {qty fuel : Nat} {r : S3Result}
    (h : uploadToS3 s3 date job qty fuel = some r) (hnp : ∀ k, Ev.put k ∉ r.trace) :
    r.finalKeys = s3.keys := by
  rcases uploadToS3_inv h with ⟨_, rfl⟩ | ⟨probed, _, rfl⟩ | ⟨k', probed, _, _, rfl⟩ |
    ⟨k', probed, _, _, _, rfl⟩ | ⟨k', probed, _, _, _, rfl⟩
  · rfl
  · rfl
  · rfl
  · exact absurd (by simp : Ev.put k' ∈ _) (hnp k')
  · exact absurd (by simp : Ev.put k' ∈ _) (hnp k')

/-- The upload never removes archive keys: the final key set is the initial
one, possibly extended by the single written key. -/
theorem uploadToS3_keys {s3 : S3Env} {date job : String} {qty fuel : Nat} {r : S3Result}
    (h : uploadToS3 s3 date job qty fuel = some r) :
    r.finalKeys = s3.keys ∨ ∃ k, r.finalKeys = k :: s3.keys := by
  rcases uploadToS3_inv h with ⟨_, rfl⟩ | ⟨probed, _, rfl⟩ | ⟨k', probed, _, _, rfl⟩ |
    ⟨k', probed, _, _, _, rfl⟩ | ⟨k', probed, _, _, _, rfl⟩
  · exact Or.inl rfl
  · exact Or.inl rfl
  · exact Or.inl rfl
  · exact Or.inr ⟨k', rfl⟩
  · exact Or.inr ⟨k', rfl⟩

/-! ## Lemmas about the pipeline -/

/-- Direct computation: threshold failure on the programmed counter. -/
theorem run_below_programmed {env : PipeEnv} {j : String} {q p v : Nat} {dev : String} {f : Nat}
    (hq : ¬ q ≤ p) :
    analyzeAndPost env j q p v dev f =
      some ⟨.belowThresholdProgrammed, false, [], env.s3.keys⟩ := by
  unfold analyzeAndPost
  rw [if_neg hq]

/-- Direct computation: threshold failure on the verified counter. -/
theorem run_below_verified {env : PipeEnv} {j : String} {q p v : Nat} {dev : String} {f : Nat}
    (hq : q ≤ p) (hv : ¬ q ≤ v) :
    analyzeAndPost env j q p v dev f =
      some ⟨.belowThresholdVerified, false, [], env.s3.keys⟩ := by
  unfold analyzeAndPost
  rw [if_pos hq, if_neg hv]

/-- Direct computation: a failed upload after a successful insert yields the
upload-failed outcome with the single compensating delete appended. -/
theorem run_upload_fail {env : PipeEnv} {j : String} {q p v : Nat} {dev : String} {f : Nat}
    {rid : Option Nat} {r : S3Result} (hq : q ≤ p) (hv : q ≤ v)
    (hpost : postToDatabase ⟨j, q, p, v, dev⟩ env.insertResp = (true, rid))
    (hfo : env.fileOpen = .ok)
    (hu : uploadToS3 env.s3 env.date j q f = some r) (hr : r.result = none) :
    analyzeAndPost env j q p v dev f =
      some ⟨(if rollbackDatabase env.deleteResp then .uploadFailedRolledBack
             else .uploadFailedRollbackFailed rid), advOf q p v,
            .insert :: (r.trace ++ [.dbDelete rid]), r.finalKeys⟩ := by
  unfold analyzeAndPost
  rw [if_pos hq, if_pos hv]
  simp only [hpost, hfo, hu, hr]

/-- Direct computation: full success when the upload verifies and the local
deletion call returns normally. -/
theorem run_success {env : PipeEnv} {j : String} {q p v : Nat} {dev : String} {f : Nat}
    {rid : Option Nat} {r : S3Result} {k : String} (hq : q ≤ p) (hv : q ≤ v)
    (hpost : postToDatabase ⟨j, q, p, v, dev⟩ env.insertResp = (true, rid))
    (hfo : env.fileOpen = .ok)
    (hu : uploadToS3 env.s3 env.date j q f = some r) (hr : r.result = some k)
    (hdel : deleteLogFile env.localDelete = .ok ()) :
    analyzeAndPost env j q p v dev f =
      some ⟨.fullSuccess k, advOf q p v, .insert :: (r.trace ++ [.fsDelete]), r.finalKeys⟩ := by
  unfold analyzeAndPost
  rw [if_pos hq, if_pos hv]
  simp only [hpost, hfo, hu, hr, hdel]

/-- Direct computation: if the local-deletion call raises (the `chmod` path),
the generic exception handler rolls the database back even though both remote
writes succeeded. -/
theorem run_delete_raises {env : PipeEnv} {j : String} {q p v : Nat} {dev : String} {f : Nat}
    {rid : Option Nat} {r : S3Result} {k : String} (hq : q ≤ p) (hv : q ≤ v)
    (hpost : postToDatabase ⟨j, q, p, v, dev⟩ env.insertResp = (true, rid))
    (hfo : env.fileOpen = .ok)
    (hu : uploadToS3 env.s3 env.date j q f = some r) (hr : r.result = some k)
    (hdel : deleteLogFile env.localDelete = .error ()) :
    analyzeAndPost env j q p v dev f =
      some ⟨.unexpectedErrorRolledBack (rollbackDatabase env.deleteResp), advOf q p v,
            .insert :: (r.trace ++ [.fsDelete, .dbDelete rid]), r.finalKeys⟩ := by
  unfold analyzeAndPost
  rw [if_pos hq, if_pos hv]
  simp only [hpost, hfo, hu, hr, hdel]

/-- Exhaustive inversion of `analyzeAndPost`: every run is one of the eight
terminal shapes. -/
theorem run_inv {env : PipeEnv} {j : String} {q p v : Nat} {dev : String} {f : Nat}
    {res : RunResult} (h : analyzeAndPost env j q p v dev f = some res) :
    (¬ q ≤ p ∧ res = ⟨.belowThresholdProgrammed, false, [], env.s3.keys⟩) ∨
    (q ≤ p ∧ ¬ q ≤ v ∧ res = ⟨.belowThresholdVerified, false, [], env.s3.keys⟩) ∨
    (q ≤ p ∧ q ≤ v ∧
      (((postToDatabase ⟨j, q, p, v, dev⟩ env.insertResp).1 = false ∧
          res = ⟨.insertFailed, advOf q p v, [.insert], env.s3.keys⟩) ∨
       (∃ rid, postToDatabase ⟨j, q, p, v, dev⟩ env.insertResp = (true, rid) ∧
         ((env.fileOpen = .notFound ∧
             res = ⟨.fileNotFoundRolledBack (rollbackDatabase env.deleteResp), advOf q p v,
                    [.insert, .dbDelete rid], env.s3.keys⟩) ∨
          (env.fileOpen = .otherErr ∧
             res = ⟨.unexpectedErrorRolledBack (rollbackDatabase env.deleteResp), advOf q p v,
                    [.insert, .dbDelete rid], env.s3.keys⟩) ∨
          (env.fileOpen = .ok ∧ ∃ r, uploadToS3 env.s3 env.date j q f = some r ∧
            ((∃ k, r.result = some k ∧ deleteLogFile env.localDelete = .ok () ∧
                res = ⟨.fullSuccess k, advOf q p v,
                       .insert :: (r.trace ++ [.fsDelete]), r.finalKeys⟩) ∨
             (∃ k, r.result = some k ∧ deleteLogFile env.localDelete = .error () ∧
                res = ⟨.unexpectedErrorRolledBack (rollbackDatabase env.deleteResp), advOf q p v,
                       .insert :: (r.trace ++ [.fsDelete, .dbDelete rid]), r.finalKeys⟩) ∨
             (r.result = none ∧
                res = ⟨(if rollbackDatabase env.deleteResp then .uploadFailedRolledBack
                        else .uploadFailedRollbackFailed rid), advOf q p v,
                       .insert :: (r.trace ++ [.dbDelete rid]), r.finalKeys⟩))))))) := by
  unfold analyzeAndPost at h
  by_cases hq : q ≤ p
  swap
  · rw [if_neg hq] at h
    simp only [Option.some.injEq] at h
    exact Or.inl ⟨hq, h.symm⟩
  rw [if_pos hq] at h
  by_cases hv : q ≤ v
  swap
  · rw [if_neg hv] at h
    simp only [Option.some.injEq] at h
    exact Or.inr (Or.inl ⟨hq, hv, h.symm⟩)
  rw [if_pos hv] at h
  refine Or.inr (Or.inr ⟨hq, hv, ?_⟩)
  rcases hpost : postToDatabase ⟨j, q, p, v, dev⟩ env.insertResp with ⟨b, rid0⟩
  simp only [hpost] at h
  cases b
  · simp only [Option.some.injEq] at h
    exact Or.inl ⟨rfl, h.symm⟩
  · refine Or.inr ⟨rid0, rfl, ?_⟩
    rcases hfo : env.fileOpen with _ | _ | _
    · simp only [hfo, Option.some.injEq] at h
      rcases hu : uploadToS3 env.s3 env.date j q f with _ | r
      · simp only [hu] at h
        exact absurd h (by simp)
      · simp only [hu] at h
        refine Or.inr (Or.inr ⟨rfl, r, rfl, ?_⟩)
        rcases hr : r.result with _ | k
        · simp only [hr, Option.some.injEq] at h
          exact Or.inr (Or.inr ⟨rfl, h.symm⟩)
        · simp only [hr] at h
          rcases hdel : deleteLogFile env.localDelete with e | u
          · cases e
            simp only [hdel, Option.some.injEq] at h
            exact Or.inr (Or.inl ⟨k, rfl, rfl, h.symm⟩)
          · cases u
            simp only [hdel, Option.some.injEq] at h
            exact Or.inl ⟨k, rfl, rfl, h.symm⟩
    · simp only [hfo, Option.some.injEq] at h
      exact Or.inl ⟨rfl, h.symm⟩
    · simp only [hfo, Option.some.injEq] at h
      exact Or.inr (Or.inl ⟨rfl, h.symm⟩)

/-! ## Concrete environments for witnesses and counterexamples -/

/-- An echoed row matching the submitted record `⟨"JAN 1", 5, 5, 5, "dev"⟩`
field for field, carrying id 7. -/
def okRow : EchoedRow := ⟨some "JAN 1", some 5, some 5, some 5, some "dev", some 7⟩

/-- A fully healthy environment. -/
def envOk : PipeEnv :=
  ⟨.resp [okRow], .resp true, ⟨true, [], fun _ => .honest, .honest, .ok⟩,
   "2025-11-20", .ok, .removed⟩

/-- Healthy except BUCKET_NAME is unset, so the upload stage fails. -/
def envC1 : PipeEnv :=
  ⟨.resp [okRow], .resp true, ⟨false, [], fun _ => .honest, .honest, .ok⟩,
   "2025-11-20", .ok, .removed⟩

/-- Healthy except the post-put verification probe answers 403. -/
def envC3 : PipeEnv :=
  ⟨.resp [okRow], .resp true, ⟨true, [], fun _ => .honest, .deny403, .ok⟩,
   "2025-11-20", .ok, .removed⟩

/-- Healthy except local removal raises a (caught) PermissionError. -/
def envC5 : PipeEnv :=
  ⟨.resp [okRow], .resp true, ⟨true, [], fun _ => .honest, .honest, .ok⟩,
   "2025-11-20", .ok, .permError⟩

/-- The insert call raises, everything else healthy. -/
def envC6 : PipeEnv :=
  ⟨.raises, .resp true, ⟨true, [], fun _ => .honest, .honest, .ok⟩,
   "2025-11-20", .ok, .removed⟩

/-- An echoed row matching `⟨"JAN 1", 5, 5, 5, "dev"⟩` but carrying no id. -/
def rowNoId : EchoedRow := ⟨some "JAN 1", some 5, some 5, some 5, some "dev", none⟩

/-- Echo matches but no id; the put fails. -/
def envC10 : PipeEnv :=
  ⟨.resp [rowNoId], .resp true, ⟨true, [], fun _ => .honest, .honest, .fail⟩,
   "2025-11-20", .ok, .removed⟩

/-- The archive key chosen on first probe for date 2025-11-20, job "JAN 1",
quantity 5. -/
def keyJan : String := "logs/2025-11-20-JAN 1-5.txt"

/-- The run result of a fully successful commit in `envOk` / `envC5`. -/
def resSuccess : RunResult :=
  ⟨.fullSuccess keyJan, false,
   [.insert, .probe keyJan, .put keyJan, .probe keyJan, .fsDelete], [keyJan]⟩

/-- The run result of the failed commit in `envC10`. -/
def resC10 : RunResult :=
  ⟨.uploadFailedRolledBack, false,
   [.insert, .probe keyJan, .put keyJan, .dbDelete none], []⟩

/-! ## The claims -/

/-- C1: whenever the database insert succeeds and the upload stage then fails
(key probing, the put itself, and post-put re-verification all surface as a
failed upload result), the pipeline issues the database delete exactly once,
with the recordId returned by that insert, before returning the upload-failed
outcome, and the outcome records whether that rollback succeeded. -/
theorem C1_rollback_exactly_once {env : PipeEnv} {j : String} {q p v : Nat} {dev : String}
    {f : Nat} {rid : Option Nat} {r : S3Result} (hq : q ≤ p) (hv : q ≤ v)
    (hpost : postToDatabase ⟨j, q, p, v, dev⟩ env.insertResp = (true, rid))
    (hfo : env.fileOpen = .ok)
    (hu : uploadToS3 env.s3 env.date j q f = some r) (hr : r.result = none) :
    ∃ res, analyzeAndPost env j q p v dev f = some res ∧
      res.trace.filter isDbDelete = [.dbDelete rid] ∧
      (rollbackDatabase env.deleteResp = true → res.outcome = .uploadFailedRolledBack) ∧
      (rollbackDatabase env.deleteResp = false → res.outcome = .uploadFailedRollbackFailed rid) := by
  refine ⟨_, run_upload_fail hq hv hpost hfo hu hr, ?_, ?_, ?_⟩
  · show (Ev.insert :: (r.trace ++ [Ev.dbDelete rid])).filter isDbDelete = [Ev.dbDelete rid]
    simp [List.filter_cons, List.filter_append, uploadToS3_no_delete hu, isDbDelete]
  · intro hrb
    show (if rollbackDatabase env.deleteResp then Outcome.uploadFailedRolledBack
          else Outcome.uploadFailedRollbackFailed rid) = _
    rw [hrb]
    simp
  · intro hrb
    show (if rollbackDatabase env.deleteResp then Outcome.uploadFailedRolledBack
          else Outcome.uploadFailedRollbackFailed rid) = _
    rw [hrb]
    simp

/-- Witness for C1 at a concrete failing upload (BUCKET_NAME unset). -/
theorem C1_witness :
    ∃ res, analyzeAndPost envC1 "JAN 1" 5 5 5 "dev" 1 = some res ∧
      res.trace.filter isDbDelete = [.dbDelete (some 7)] ∧
      (rollbackDatabase envC1.deleteResp = true → res.outcome = .uploadFailedRolledBack) ∧
      (rollbackDatabase envC1.deleteResp = false →
        res.outcome = .uploadFailedRollbackFailed (some 7)) :=
  @C1_rollback_exactly_once envC1 "JAN 1" 5 5 5 "dev" 1 (some 7) ⟨none, [], []⟩
    (by decide) (by decide) (by decide) rfl rfl rfl

/-- C2: commit is attempted iff both counters reach the quantity; otherwise
the pipeline returns the below-threshold outcome immediately, naming the
programmed counter when it failed and the verified counter only when
programmed passed, with no remote call made. -/
theorem C2_threshold {env : PipeEnv} {j : String} {q p v : Nat} {dev : String} {f : Nat}
    {res : RunResult} (h : analyzeAndPost env j q p v dev f = some res) :
    ((q ≤ p ∧ q ≤ v) ↔ Ev.insert ∈ res.trace) ∧
    (¬ q ≤ p → res = ⟨.belowThresholdProgrammed, false, [], env.s3.keys⟩) ∧
    (q ≤ p → ¬ q ≤ v → res = ⟨.belowThresholdVerified, false, [], env.s3.keys⟩) := by
  rcases run_inv h with ⟨hq, rfl⟩ | ⟨hq, hv, rfl⟩ | ⟨hq, hv, hrest⟩
  · refine ⟨⟨fun h1 => absurd h1.1 hq, fun hin => by simp at hin⟩,
      fun _ => rfl, fun hq' _ => absurd hq' hq⟩
  · refine ⟨⟨fun h1 => absurd h1.2 hv, fun hin => by simp at hin⟩,
      fun h' => absurd hq h', fun _ _ => rfl⟩
  · have hins : Ev.insert ∈ res.trace := by
      rcases hrest with ⟨_, rfl⟩ | ⟨rid, _, hcase⟩
      · simp
      · rcases hcase with ⟨_, rfl⟩ | ⟨_, rfl⟩ | ⟨_, r, _, hcase2⟩
        · simp
        · simp
        · rcases hcase2 with ⟨k, _, _, rfl⟩ | ⟨k, _, _, rfl⟩ | ⟨_, rfl⟩ <;> simp
    exact ⟨⟨fun _ => hins, fun _ => ⟨hq, hv⟩⟩,
      fun h' => absurd hq h', fun _ h' => absurd hv h'⟩

/-- Witness for C2 at the spec's example (programmed 4, verified 10,
quantity 5). -/
theorem C2_witness :
    ((5 ≤ 4 ∧ 5 ≤ 10) ↔
      Ev.insert ∈ (⟨.belowThresholdProgrammed, false, [], []⟩ : RunResult).trace) ∧
    (¬ 5 ≤ 4 → (⟨.belowThresholdProgrammed, false, [], []⟩ : RunResult) =
      ⟨.belowThresholdProgrammed, false, [], envOk.s3.keys⟩) ∧
    (5 ≤ 4 → ¬ 5 ≤ 10 → (⟨.belowThresholdProgrammed, false, [], []⟩ : RunResult) =
      ⟨.belowThresholdVerified, false, [], envOk.s3.keys⟩) :=
  @C2_threshold envOk "JAN 1" 5 4 10 "dev" 1 ⟨.belowThresholdProgrammed, false, [], []⟩ rfl

/-- C3 (counterexample): a run in which the put succeeds but the
re-verification probe answers 403 (treated as absent) returns the
upload-failed outcome while the object written by this very attempt is still
in the archive: a failed upload can leave an existing archive object. -/
theorem C3_counterexample :
    analyzeAndPost envC3 "JAN 1" 5 5 5 "dev" 1 =
      some ⟨.uploadFailedRolledBack, false,
            [.insert, .probe keyJan, .put keyJan, .probe keyJan, .dbDelete (some 7)],
            [keyJan]⟩ ∧
    keyJan ∈ [keyJan] ∧
    Ev.put keyJan ∈ [Ev.insert, Ev.probe keyJan, Ev.put keyJan, Ev.probe keyJan,
      Ev.dbDelete (some 7)] := by
  exact ⟨by decide, by simp, by simp⟩

/-- C3 (amended): compensation only ever targets the database — the pipeline
never removes an archive key, and on an upload-failed outcome the archive is
unchanged unless the put itself succeeded and only its re-verification
failed, in which case exactly that one freshly written object remains. -/
theorem C3_amended {env : PipeEnv} {j : String} {q p v : Nat} {dev : String} {f : Nat}
    {res : RunResult} {x : Option Nat} (h : analyzeAndPost env j q p v dev f = some res)
    (hout : res.outcome = .uploadFailedRolledBack ∨
      res.outcome = .uploadFailedRollbackFailed x) :
    ((∀ k, Ev.put k ∉ res.trace) → res.finalKeys = env.s3.keys) ∧
    (∀ k, Ev.put k ∈ res.trace → env.s3.putFault = .ok →
      res.finalKeys = k :: env.s3.keys) ∧
    (env.s3.putFault = .fail → res.finalKeys = env.s3.keys) ∧
    (res.finalKeys = env.s3.keys ∨ ∃ k, res.finalKeys = k :: env.s3.keys) := by
  rcases run_inv h with ⟨_, rfl⟩ | ⟨_, _, rfl⟩ | ⟨hq, hv, hrest⟩
  · rcases hout with h' | h' <;> simp at h'
  · rcases hout with h' | h' <;> simp at h'
  · rcases hrest with ⟨_, rfl⟩ | ⟨rid, hpost, hcase⟩
    · rcases hout with h' | h' <;> simp at h'
    · rcases hcase with ⟨_, rfl⟩ | ⟨_, rfl⟩ | ⟨hfo, r, hu, hcase2⟩
      · rcases hout with h' | h' <;> simp at h'
      · rcases hout with h' | h' <;> simp at h'
      · rcases hcase2 with ⟨k, hk, hdel, rfl⟩ | ⟨k, hk, hdel, rfl⟩ | ⟨hr, rfl⟩
        · rcases hout with h' | h' <;> simp at h'
        · rcases hout with h' | h' <;> simp at h'
        · refine ⟨?_, ?_, ?_, ?_⟩
          · intro hnp
            exact uploadToS3_no_put hu (fun k hkmem => hnp k (by simp [hkmem]))
          · intro k hkmem hp
            have hput : Ev.put k ∈ r.trace := by
              rcases List.mem_cons.mp hkmem with h' | h'
              · simp at h'
              · rcases List.mem_append.mp h' with h' | h'
                · exact h'
                · simp at h'
            exact uploadToS3_put_mem hu hput hp
          · intro hp
            exact (uploadToS3_putFail hu hp).2
          · exact uploadToS3_keys hu

/-- Witness for the amended C3 at the concrete 403-on-verify run. -/
theorem C3_amended_witness :
    ((∀ k, Ev.put k ∉ ([.insert, .probe keyJan, .put keyJan, .probe keyJan,
        .dbDelete (some 7)] : List Ev)) → [keyJan] = envC3.s3.keys) ∧
    (∀ k, Ev.put k ∈ ([.insert, .probe keyJan, .put keyJan, .probe keyJan,
        .dbDelete (some 7)] : List Ev) → envC3.s3.putFault = .ok →
      ([keyJan] : List String) = k :: envC3.s3.keys) ∧
    (envC3.s3.putFault = .fail → ([keyJan] : List String) = envC3.s3.keys) ∧
    (([keyJan] : List String) = envC3.s3.keys ∨
      ∃ k, ([keyJan] : List String) = k :: envC3.s3.keys) :=
  @C3_amended envC3 "JAN 1" 5 5 5 "dev" 1
    ⟨.uploadFailedRolledBack, false,
     [.insert, .probe keyJan, .put keyJan, .probe keyJan, .dbDelete (some 7)], [keyJan]⟩
    none (by decide) (Or.inl rfl)

/-- C4: insert reports success only when every echoed field equals the
corresponding submitted one, and then surfaces the echoed id; any echoed
mismatch yields failure with no record id. -/
theorem C4_insert_echo (d : SubmittedData) (resp : InsertResp) :
    ((postToDatabase d resp).1 = true →
      ∃ r rest, resp = .resp (r :: rest) ∧
        r.job_order = some d.job_order ∧ r.job_quantity = some d.job_quantity ∧
        r.programmed = some d.programmed ∧ r.verified = some d.verified ∧
        r.device = some d.device ∧ (postToDatabase d resp).2 = r.id) ∧
    (∀ r rest, resp = .resp (r :: rest) → echoMatches r d = false →
      postToDatabase d resp = (false, none)) := by
  constructor
  · intro hsucc
    rcases resp with _ | rows
    · simp [postToDatabase] at hsucc
    · rcases rows with _ | ⟨r, rest⟩
      · simp [postToDatabase] at hsucc
      · by_cases hm : echoMatches r d = true
        · have h5 := hm
          simp only [echoMatches, Bool.and_eq_true, beq_iff_eq] at h5
          obtain ⟨⟨⟨⟨h1, h2⟩, h3⟩, h4⟩, h5'⟩ := h5
          exact ⟨r, rest, rfl, h1, h2, h3, h4, h5', by simp [postToDatabase, hm]⟩
        · simp [postToDatabase, hm] at hsucc
  · intro r rest hresp hm
    subst hresp
    simp [postToDatabase, hm]

/-- Witness for C4 at the spec's example: submitted quantity 100, echoed 99. -/
theorem C4_witness :
    postToDatabase ⟨"JAN 1", 100, 100, 100, "dev"⟩
      (.resp [⟨some "JAN 1", some 99, some 100, some 100, some "dev", some 7⟩]) =
      (false, none) :=
  (C4_insert_echo ⟨"JAN 1", 100, 100, 100, "dev"⟩
      (.resp [⟨some "JAN 1", some 99, some 100, some 100, some "dev", some 7⟩])).2
    ⟨some "JAN 1", some 99, some 100, some 100, some "dev", some 7⟩ [] rfl (by decide)

/-- C5 (counterexample): when removal fails with a PermissionError after both
remote writes succeeded, the run produces exactly the same full-success
result as a run whose deletion succeeds — there is no distinct
source-delete-failed outcome — and nothing is rolled back. -/
theorem C5_counterexample :
    analyzeAndPost envC5 "JAN 1" 5 5 5 "dev" 1 = analyzeAndPost envOk "JAN 1" 5 5 5 "dev" 1 ∧
    analyzeAndPost envC5 "JAN 1" 5 5 5 "dev" 1 = some resSuccess ∧
    resSuccess.trace.filter isDbDelete = [] := by
  exact ⟨by decide, by decide, by decide⟩

/-- C5 (amended): when local deletion fails with an error that
`delete_log_file` catches (permission or any other error from the remove
itself), the call returns normally just as on success, so the pipeline emits
the very same full-success outcome — there is no distinct partial-success
outcome — and rolls back neither the database row nor the archive object;
only an uncaught exception from the pre-delete chmod produces a different
outcome, and that one rolls the database back. -/
theorem C5_amended {env : PipeEnv} {j : String} {q p v : Nat} {dev : String} {f : Nat}
    {rid : Option Nat} {r : S3Result} {k : String} (hq : q ≤ p) (hv : q ≤ v)
    (hpost : postToDatabase ⟨j, q, p, v, dev⟩ env.insertResp = (true, rid))
    (hfo : env.fileOpen = .ok)
    (hu : uploadToS3 env.s3 env.date j q f = some r) (hr : r.result = some k) :
    (deleteLogFile env.localDelete = .ok () →
      analyzeAndPost env j q p v dev f =
        some ⟨.fullSuccess k, advOf q p v, .insert :: (r.trace ++ [.fsDelete]), r.finalKeys⟩ ∧
      (.insert :: (r.trace ++ [.fsDelete])).filter isDbDelete = [] ∧
      r.finalKeys = k :: env.s3.keys) ∧
    (deleteLogFile env.localDelete = .error () →
      analyzeAndPost env j q p v dev f =
        some ⟨.unexpectedErrorRolledBack (rollbackDatabase env.deleteResp), advOf q p v,
              .insert :: (r.trace ++ [.fsDelete, .dbDelete rid]), r.finalKeys⟩) := by
  constructor
  · intro hdel
    refine ⟨run_success hq hv hpost hfo hu hr hdel, ?_, ?_⟩
    · simp [List.filter_cons, List.filter_append, uploadToS3_no_delete hu, isDbDelete]
    · exact (uploadToS3_result_some hu hr).2.2.1
  · intro hdel
    exact run_delete_raises hq hv hpost hfo hu hr hdel

/-- Witness for the amended C5 at the concrete PermissionError run. -/
theorem C5_amended_witness :
    analyzeAndPost envC5 "JAN 1" 5 5 5 "dev" 1 =
      some ⟨.fullSuccess keyJan, advOf 5 5 5,
            .insert :: ([.probe keyJan, .put keyJan, .probe keyJan] ++ [.fsDelete]),
            [keyJan]⟩ ∧
    (.insert :: (([.probe keyJan, .put keyJan, .probe keyJan] : List Ev) ++
      [.fsDelete])).filter isDbDelete = [] ∧
    ([keyJan] : List String) = keyJan :: envC5.s3.keys :=
  (@C5_amended envC5 "JAN 1" 5 5 5 "dev" 1 (some 7)
      ⟨some keyJan, [keyJan], [.probe keyJan, .put keyJan, .probe keyJan]⟩ keyJan
      (by decide) (by decide) (by decide) rfl (by decide) rfl).1 rfl

/-- C6 (counterexample): with programmed 16, verified 5, quantity 5 only the
programmed count exceeds quantity + 10, yet the advisory fires: the code
flags it when either count exceeds the bound, not only when both do. -/
theorem C6_counterexample :
    analyzeAndPost envC6 "JAN 1" 5 16 5 "dev" 1 =
      some ⟨.insertFailed, true, [.insert], []⟩ ∧
    ¬ (5 + 10 < 16 ∧ 5 + 10 < 5) := by
  exact ⟨by decide, by decide⟩

/-- C6 (amended): the advisory fires exactly when programmed exceeds
quantity + 10 OR verified does, evaluated only once both threshold checks
pass; it is not a failure and does not alter control flow — whenever it
fires, the commit is still attempted. -/
theorem C6_advisory {env : PipeEnv} {j : String} {q p v : Nat} {dev : String} {f : Nat}
    {res : RunResult} (h : analyzeAndPost env j q p v dev f = some res) :
    (q ≤ p → q ≤ v → res.advisory = advOf q p v) ∧
    (¬ (q ≤ p ∧ q ≤ v) → res.advisory = false) ∧
    (res.advisory = true → Ev.insert ∈ res.trace) := by
  rcases run_inv h with ⟨hq, rfl⟩ | ⟨hq, hv, rfl⟩ | ⟨hq, hv, hrest⟩
  · exact ⟨fun h1 _ => absurd h1 hq, fun _ => rfl, fun hadv => by simp at hadv⟩
  · exact ⟨fun _ h2 => absurd h2 hv, fun _ => rfl, fun hadv => by simp at hadv⟩
  · have hshape : res.advisory = advOf q p v ∧ Ev.insert ∈ res.trace := by
      rcases hrest with ⟨_, rfl⟩ | ⟨rid, _, hcase⟩
      · exact ⟨rfl, by simp⟩
      · rcases hcase with ⟨_, rfl⟩ | ⟨_, rfl⟩ | ⟨_, r, _, hcase2⟩
        · exact ⟨rfl, by simp⟩
        · exact ⟨rfl, by simp⟩
        · rcases hcase2 with ⟨k, _, _, rfl⟩ | ⟨k, _, _, rfl⟩ | ⟨_, rfl⟩ <;> exact ⟨rfl, by simp⟩
    exact ⟨fun _ _ => hshape.1, fun hcon => absurd ⟨hq, hv⟩ hcon, fun _ => hshape.2⟩

/-- Witness for the amended C6: the advisory equals the either-side check at
programmed 16, verified 5, quantity 5. -/
theorem C6_witness :
    (⟨.insertFailed, true, [.insert], []⟩ : RunResult).advisory = advOf 5 16 5 :=
  (@C6_advisory envC6 "JAN 1" 5 16 5 "dev" 1 ⟨.insertFailed, true, [.insert], []⟩
    (by decide)).1 (by decide) (by decide)

/-- C8: the pipeline declares the upload successful only after a post-put
re-verification probe of the written key (visible in the trace right after
the put), and when the put succeeds but the verification probe does not
honestly find the object the run is an upload failure that triggers the
single database rollback — never a success. -/
theorem C8_reverify {env : PipeEnv} {j : String} {q p v : Nat} {dev : String} {f : Nat}
    {res : RunResult} (h : analyzeAndPost env j q p v dev f = some res) :
    (∀ k, res.outcome = .fullSuccess k →
      env.s3.putFault = .ok ∧ env.s3.verifyFault = .honest ∧
      ∃ pre, res.trace = pre ++ [.put k, .probe k, .fsDelete]) ∧
    (env.s3.putFault = .ok → env.s3.verifyFault ≠ .honest →
      (∀ k, res.outcome ≠ .fullSuccess k) ∧
      ((∃ k, Ev.put k ∈ res.trace) → ∃ rid,
        res.trace.filter isDbDelete = [.dbDelete rid] ∧
        (res.outcome = .uploadFailedRolledBack ∨
          res.outcome = .uploadFailedRollbackFailed rid))) := by
  rcases run_inv h with ⟨hq, rfl⟩ | ⟨hq, hv', rfl⟩ | ⟨hq, hv', hrest⟩
  · exact ⟨fun k hk => by simp at hk,
      fun _ _ => ⟨fun k hk => by simp at hk, fun ⟨k, hk⟩ => by simp at hk⟩⟩
  · exact ⟨fun k hk => by simp at hk,
      fun _ _ => ⟨fun k hk => by simp at hk, fun ⟨k, hk⟩ => by simp at hk⟩⟩
  · rcases hrest with ⟨_, rfl⟩ | ⟨rid, hpost, hcase⟩
    · exact ⟨fun k hk => by simp at hk,
        fun _ _ => ⟨fun k hk => by simp at hk, fun ⟨k, hk⟩ => by simp at hk⟩⟩
    · rcases hcase with ⟨_, rfl⟩ | ⟨_, rfl⟩ | ⟨hfo, r, hu, hcase2⟩
      · exact ⟨fun k hk => by simp at hk,
          fun _ _ => ⟨fun k hk => by simp at hk, fun ⟨k, hk⟩ => by simp at hk⟩⟩
      · exact ⟨fun k hk => by simp at hk,
          fun _ _ => ⟨fun k hk => by simp at hk, fun ⟨k, hk⟩ => by simp at hk⟩⟩
      · rcases hcase2 with ⟨k0, hk0, hdel, rfl⟩ | ⟨k0, hk0, hdel, rfl⟩ | ⟨hr, rfl⟩
        · obtain ⟨hp0, hhon, hkeys, pre, htr⟩ := uploadToS3_result_some hu hk0
          constructor
          · intro k hk
            have hkk : k0 = k := by simpa using hk
            subst hkk
            refine ⟨hp0, hhon, ⟨.insert :: pre, ?_⟩⟩
            show Ev.insert :: (r.trace ++ [Ev.fsDelete]) = _
            rw [htr]
            simp
          · intro _ hvf
            exact absurd hhon hvf
        · obtain ⟨hp0, hhon, _, _⟩ := uploadToS3_result_some hu hk0
          exact ⟨fun k hk => by simp at hk, fun _ hvf => absurd hhon hvf⟩
        · constructor
          · intro k hk
            rcases hrb : rollbackDatabase env.deleteResp with _ | _ <;> simp [hrb] at hk
          · intro _ _
            refine ⟨fun k hk => ?_, fun _ => ⟨rid, ?_, ?_⟩⟩
            · rcases hrb : rollbackDatabase env.deleteResp with _ | _ <;> simp [hrb] at hk
            · show (Ev.insert :: (r.trace ++ [Ev.dbDelete rid])).filter isDbDelete = _
              simp [List.filter_cons, List.filter_append, uploadToS3_no_delete hu, isDbDelete]
            · rcases hrb : rollbackDatabase env.deleteResp with _ | _
              · exact Or.inr rfl
              · exact Or.inl rfl

/-- Witness for C8 at the fully successful concrete run. -/
theorem C8_witness :
    envOk.s3.putFault = .ok ∧ envOk.s3.verifyFault = .honest ∧
    ∃ pre, resSuccess.trace = pre ++ [.put keyJan, .probe keyJan, .fsDelete] :=
  (@C8_reverify envOk "JAN 1" 5 5 5 "dev" 1 resSuccess (by decide)).1 keyJan rfl

/-- C10: an echoed row matching every submitted field but carrying no id
makes the insert report success while surfacing no record id, and a
subsequent upload failure then issues the compensating delete with that
absent key — insert success does not guarantee a usable rollback key. -/
theorem C10_missing_id {env : PipeEnv} {j : String} {q p v : Nat} {dev : String} {f : Nat}
    {row : EchoedRow} {rest : List EchoedRow} {res : RunResult}
    (henv : env.insertResp = .resp (row :: rest))
    (hmatch : echoMatches row ⟨j, q, p, v, dev⟩ = true) (hid : row.id = none)
    (hq : q ≤ p) (hv : q ≤ v) (hfo : env.fileOpen = .ok) (hp : env.s3.putFault = .fail)
    (h : analyzeAndPost env j q p v dev f = some res) :
    postToDatabase ⟨j, q, p, v, dev⟩ env.insertResp = (true, none) ∧
    Ev.dbDelete none ∈ res.trace ∧
    (res.outcome = .uploadFailedRolledBack ∨
      res.outcome = .uploadFailedRollbackFailed none) := by
  have hpost : postToDatabase ⟨j, q, p, v, dev⟩ env.insertResp = (true, none) := by
    rw [henv]
    simp [postToDatabase, hmatch, hid]
  refine ⟨hpost, ?_⟩
  rcases run_inv h with ⟨hq', _⟩ | ⟨_, hv', _⟩ | ⟨_, _, hrest⟩
  · exact absurd hq hq'
  · exact absurd hv hv'
  · rcases hrest with ⟨hfail, _⟩ | ⟨rid, hpost', hcase⟩
    · rw [hpost] at hfail
      simp at hfail
    · have hrid : rid = none := by
        have := hpost.symm.trans hpost'
        simpa using this.symm
      subst hrid
      rcases hcase with ⟨hno, _⟩ | ⟨hot, _⟩ | ⟨_, r, hu, hcase2⟩
      · rw [hfo] at hno
        simp at hno
      · rw [hfo] at hot
        simp at hot
      · have hrnone : r.result = none := (uploadToS3_putFail hu hp).1
        rcases hcase2 with ⟨k, hk, _, _⟩ | ⟨k, hk, _, _⟩ | ⟨_, rfl⟩
        · rw [hrnone] at hk
          simp at hk
        · rw [hrnone] at hk
          simp at hk
        · refine ⟨by simp, ?_⟩
          rcases hrb : rollbackDatabase env.deleteResp with _ | _
          · exact Or.inr rfl
          · exact Or.inl rfl

/-- Witness for C10 at the concrete id-less echo with a failing put. -/
theorem C10_witness :
    postToDatabase ⟨"JAN 1", 5, 5, 5, "dev"⟩ envC10.insertResp = (true, none) ∧
    Ev.dbDelete none ∈ resC10.trace ∧
    (resC10.outcome = .uploadFailedRolledBack ∨
      resC10.outcome = .uploadFailedRollbackFailed none) :=
  @C10_missing_id envC10 "JAN 1" 5 5 5 "dev" 1 rowNoId [] resC10 rfl (by decide) rfl
    (by decide) (by decide) rfl rfl (by decide)

end PyPVLC
